import Mathlib

/-!
Verification development for the epubizon reader's document-handler core.

The definitions below are a shallow embedding of the JavaScript sources
`src/epub-handler.js`, `src/pdf-handler.js` and `src/renderer.js`:
pure computations become Lean functions, the handlers' mutable instance
fields become explicit state records that the embedded operations thread
through, and the external rendering libraries (epub.js, PDF.js) are
modelled as oracle parameters (`Nat → Option _`): `some` is a successful
library call, `none` is an unavailable library or a thrown exception,
matching the `try/catch`-plus-fallback structure of the source.  JS `Map`
caches become association lists queried through `lookupCache`; JS string
`replace` with the concrete regular expressions used by the source is
embedded as explicit fuel-based scanners with the same leftmost-match,
single-pass, dot-does-not-match-newline semantics.
-/

/-! ## Generic string machinery shared by both handlers -/

/-- Whitespace test used for the JS `\s` character class and `String.trim`.
The source only ever meets ASCII whitespace; the rare extra members of
JS `\s` (form feed, vertical tab, unicode spaces) are omitted. -/
def isWsChar (c : Char) : Bool :=
  c == ' ' || c == '\t' || c == '\n' || c == '\r'

/-- Association-list lookup standing in for `Map.prototype.get`/`has`
(first binding wins, so prepending a pair is `Map.prototype.set`). -/
def lookupCache (cache : List (Nat × String)) (k : Nat) : Option String :=
  match cache with
  | [] => none
  | (k2, v) :: rest => if k2 = k then some v else lookupCache rest k

/-- JS `String.prototype.trim` on the character list: drop whitespace from
both ends. -/
def trimChars (l : List Char) : List Char :=
  ((l.dropWhile isWsChar).reverse.dropWhile isWsChar).reverse

/-- JS `String.prototype.trim`. -/
def trimString (s : String) : String :=
  String.mk (trimChars s.data)

/-- The `replace(/\s+/g, ' ')` normalisation: every maximal whitespace run
becomes a single space. -/
def normalizeWsChars : List Char → List Char
  | [] => []
  | c :: cs =>
    if isWsChar c then ' ' :: normalizeWsChars (cs.dropWhile isWsChar)
    else c :: normalizeWsChars cs
termination_by l => l.length
decreasing_by
  · simp only [List.length_cons]
    have hsub : (cs.dropWhile isWsChar).Sublist cs := List.dropWhile_sublist _
    have := hsub.length_le
    omega
  · simp

/-- Case-insensitive literal match (the `/i` flag): consume `pat` from the
front of the input, returning the remainder on success. -/
def matchCI : List Char → List Char → Option (List Char)
  | [], rest => some rest
  | _ :: _, [] => none
  | p :: ps, c :: cs => if p.toLower == c.toLower then matchCI ps cs else none

/-- Scan for the closing literal `</tag>` the way the lazy `.*?` does: the
content may be any characters except line terminators (JS `.` does not
match `\n` or `\r`), and the first occurrence of the closing literal wins.
Returns the input remaining after the closing literal. -/
def findCloseTag (close : List Char) : List Char → Option (List Char)
  | [] => none
  | c :: cs =>
    match matchCI close (c :: cs) with
    | some rest => some rest
    | none => if c == '\n' || c == '\r' then none else findCloseTag close cs

/-- Attempt to match the regex `<tag[^>]*>.*?</tag>` (flags `gi`) at the
head of the input: the literal `<tag`, then greedy non-`>` characters and
the closing `>`, then the lazy single-line content up to `</tag>`.
Returns the input remaining after the whole element on success. -/
def tryMatchElem (tag : List Char) (l : List Char) : Option (List Char) :=
  match matchCI ('<' :: tag) l with
  | none => none
  | some r1 =>
    match r1.dropWhile (fun c => c != '>') with
    | [] => none
    | _ :: r2 => findCloseTag ('<' :: '/' :: (tag ++ ['>'])) r2

/-- One global-`replace` pass deleting every match of
`<tag[^>]*>.*?</tag>`: scan left to right, at each position delete a match
if one starts there (resuming after its end, as `g` does) and otherwise
keep the character.  The fuel argument only bounds the recursion; it is
always instantiated with the input length, which suffices because every
step consumes at least one character. -/
def stripElemAux (tag : List Char) : Nat → List Char → List Char
  | 0, l => l
  | _ + 1, [] => []
  | fuel + 1, c :: cs =>
    match tryMatchElem tag (c :: cs) with
    | some rest => stripElemAux tag fuel rest
    | none => c :: stripElemAux tag fuel cs

/-- `s.replace(/<tag[^>]*>.*?<\/tag>/gi, '')`. -/
def stripElem (tag : String) (s : String) : String :=
  String.mk (stripElemAux tag.data s.data.length s.data)

/-- Substring test used to state facts about processed markup. -/
def containsSubAux (pat : List Char) : List Char → Bool
  | [] => pat.isPrefixOf []
  | c :: cs => pat.isPrefixOf (c :: cs) || containsSubAux pat cs

/-- Whether `pat` occurs as a contiguous substring of `s`. -/
def containsSub (s pat : String) : Bool :=
  containsSubAux pat.data s.data

/-! ## PDF handler (`src/pdf-handler.js`) -/

/-- One synthesized PDF chapter: `createChaptersFromPages` pushes objects
`title / pageStart / pageEnd`. -/
structure PdfChapter where
  title : String
  pageStart : Nat
  pageEnd : Nat
deriving DecidableEq

/-- The chapter object built for loop index `i` in
`createChaptersFromPages`: `startPage = i + 1`,
`endPage = Math.min(i + chaptersPerSection, totalPages)`,
`chapterNum = Math.floor(i / chaptersPerSection) + 1`, and the
Introduction / Conclusion / `Chapter N` title selection. -/
def mkPdfChapter (tp cps i : Nat) : PdfChapter :=
  { title :=
      if i + 1 = 1 then "Introduction"
      else if min (i + cps) tp = tp then "Conclusion"
      else "Chapter " ++ toString (i / cps + 1)
  , pageStart := i + 1
  , pageEnd := min (i + cps) tp }

/-- The loop `for (let i = 0; i < totalPages; i += chaptersPerSection)` of
`createChaptersFromPages`, unrolled as a recursion on the loop index.  The
source calls it only with `cps = Math.max(1, ...) ≥ 1`; the `0 < cps`
conjunct in the guard (needed for termination) therefore never changes the
result at any reachable call. -/
def buildChapters (tp cps i : Nat) : List PdfChapter :=
  if h : 0 < cps ∧ i < tp then
    mkPdfChapter tp cps i :: buildChapters tp cps (i + cps)
  else []
termination_by tp - i
decreasing_by omega

/-- `PdfHandler.createChaptersFromPages`:
`chaptersPerSection = Math.max(1, Math.floor(totalPages / 7))` and the
page-range loop above. -/
def createChaptersFromPages (tp : Nat) : List PdfChapter :=
  buildChapters tp (max 1 (tp / 7)) 0

/-- The mock chapter list returned by `PdfHandler.mockLoadPdf`. -/
def pdfMockChapters : List PdfChapter :=
  [ { title := "Table of Contents", pageStart := 1, pageEnd := 2 }
  , { title := "Introduction", pageStart := 3, pageEnd := 8 }
  , { title := "Chapter 1: Fundamentals", pageStart := 9, pageEnd := 18 }
  , { title := "Chapter 2: Advanced Concepts", pageStart := 19, pageEnd := 28 }
  , { title := "Chapter 3: Practical Applications", pageStart := 29, pageEnd := 38 }
  , { title := "Chapter 4: Case Studies", pageStart := 39, pageEnd := 43 }
  , { title := "Conclusion", pageStart := 44, pageEnd := 45 } ]

/-- The normalized document descriptor a handler's `loadBook` resolves
with, parametric in the chapter record used by the handler.  The source
returns plain object literals; a key the literal does not carry is
modelled as `none`. -/
structure BookData (χ : Type) where
  chapters : List χ
  totalPages : Nat
  isLargeFile : Option Bool

/-- `PdfHandler.loadBook`: on the real path (`ok = true`, PDF.js opened
the document and reported `numPages`) the descriptor carries the
synthesized chapter ranges; on any failure the mock 45-page descriptor is
returned.  Neither object literal has an `isLargeFile` key. -/
def pdfLoadBook (ok : Bool) (numPages : Nat) : BookData PdfChapter :=
  if ok then
    { chapters := createChaptersFromPages numPages
    , totalPages := numPages
    , isLargeFile := none }
  else
    { chapters := pdfMockChapters
    , totalPages := 45
    , isLargeFile := none }

/-- The mutable fields of a `PdfHandler` instance that the embedded
operations read or write: `pdfDocument`/`pdfjsLib` as availability flags,
`totalPages`, the `pages` dimension array, and the `textContent` cache. -/
structure PdfState where
  hasDoc : Bool
  hasLib : Bool
  totalPages : Nat
  pages : List (Nat × Nat)
  textContent : List (Nat × String)
deriving DecidableEq

/-- The run-collapsing `replace(/(.)\1\x7b3,\x7d/g, '$1')`: a run of four
or more copies of one character (the dot excludes `\n`) is replaced by a
single copy. -/
def collapseRuns : List Char → List Char
  | [] => []
  | c :: cs =>
    let run := cs.takeWhile (fun d => d == c)
    let rest := cs.dropWhile (fun d => d == c)
    (if 4 ≤ run.length + 1 && c != '\n' then [c] else c :: run) ++ collapseRuns rest
termination_by l => l.length
decreasing_by
  simp only [List.length_cons, rest]
  have hsub : (cs.dropWhile (fun d => d == c)).Sublist cs := List.dropWhile_sublist _
  have := hsub.length_le
  omega

/-- The text clean-up in `PdfHandler.getPageText`: normalize whitespace,
collapse 4+ repeated characters, trim. -/
def pdfCleanText (raw : String) : String :=
  String.mk (trimChars (collapseRuns (normalizeWsChars raw.data)))

/-- `PdfHandler.mockExtractPageText`, a template over the page number. -/
def mockExtractPageText (n : Nat) : String :=
  "Page " ++ toString n ++ " Content\n\n" ++
  "This is the extracted text content from page " ++ toString n ++
  " of the PDF document. In a real implementation, this would contain the actual text extracted from the PDF using PDF.js text extraction capabilities.\n\n" ++
  "This mock text represents what would typically be found on a PDF page, including headings, paragraphs, and structured content that could be used for generating summaries or performing searches.\n\n" ++
  "The content includes detailed information about the topic covered on this page, with explanations, examples, and references that would be valuable for AI-powered summary generation.\n\n" ++
  "Section " ++ toString ((n + 4) / 5) ++ "." ++ toString (if n % 5 = 0 then 5 else n % 5) ++ ": Advanced Topics\n\n" ++
  "This section covers advanced concepts and practical applications related to the main topic. It provides in-depth analysis and real-world examples that help readers understand complex concepts.\n\n" ++
  "The information presented here builds upon previous chapters and provides foundational knowledge for subsequent sections of the document."

/-- `PdfHandler.getPageText`.  `extractReal n` is the oracle for the
PDF.js text-run extraction of page `n` (already joined with spaces):
`none` when the library is unusable or the extraction throws, in which
case the source falls back to the mock text.  The guard throws before the
cache is consulted or written; every successful path stores its result in
the cache before returning it.  The pair returns the thrown error or the
produced string together with the updated handler state. -/
def pdfGetPageText (extractReal : Nat → Option String) (s : PdfState) (n : Nat) :
    Except String String × PdfState :=
  if n < 1 ∨ s.totalPages < n then (.error "Invalid page number", s)
  else
    match lookupCache s.textContent n with
    | some t => (.ok t, s)
    | none =>
      match (if s.hasDoc && s.hasLib then extractReal n else none) with
      | some raw =>
        let cleanedText := pdfCleanText raw
        (.ok cleanedText, { s with textContent := (n, cleanedText) :: s.textContent })
      | none =>
        let text := mockExtractPageText n
        (.ok text, { s with textContent := (n, text) :: s.textContent })

/-- `PdfHandler.mockRenderPage` (markup template condensed to its text and
interpolations; inline CSS shortened). -/
def mockRenderPage (n tp : Nat) : String :=
  "<div class=\"pdf-container\"><div class=\"pdf-page\">" ++
  "<h1>Sample PDF Document</h1><p>Page " ++ toString n ++ " of " ++ toString tp ++ "</p>" ++
  "<h2>Page " ++ toString n ++ " Content</h2>" ++
  "<p>This is a mock representation of page " ++ toString n ++ " in the PDF document.</p>" ++
  (if 1 < n then
    "<h3>Section " ++ toString ((n + 4) / 5) ++ "." ++ toString (if n % 5 = 0 then 5 else n % 5) ++ "</h3>"
   else "") ++
  "<p>Page " ++ toString n ++ "</p></div></div>"

/-- `PdfHandler.renderPage`.  `renderReal n` is the oracle for a
successful PDF.js rasterisation of page `n`: the canvas markup plus the
viewport width and height at scale 1.5; `none` when the library is absent
or rendering throws, the source then falling back to the mock rendering.
The out-of-range guard throws before anything else; a successful real
render updates `pages[n-1]`'s dimensions from the viewport. -/
def pdfRenderPage (renderReal : Nat → Option (String × Nat × Nat)) (s : PdfState) (n : Nat) :
    Except String String × PdfState :=
  if n < 1 ∨ s.totalPages < n then (.error "Invalid page number", s)
  else if s.hasDoc && s.hasLib then
    match renderReal n with
    | some (canvasHtml, w, h) =>
      ( .ok ("<div class=\"pdf-container\"><div class=\"pdf-page\">" ++ canvasHtml ++ "</div></div>")
      , { s with pages := s.pages.set (n - 1) (w, h) } )
    | none => (.ok (mockRenderPage n s.totalPages), s)
  else (.ok (mockRenderPage n s.totalPages), s)

/-- `PdfHandler.destroy`: drop the document, reset page bookkeeping and
clear the text cache (`this.pdfjsLib` is not touched by the source). -/
def pdfDestroy (s : PdfState) : PdfState :=
  { hasDoc := false
  , hasLib := s.hasLib
  , totalPages := 0
  , pages := []
  , textContent := [] }

/-! ## EPUB handler (`src/epub-handler.js`) -/

/-- One chapter record built by `extractChaptersLazy`. -/
structure EpubChapter where
  title : String
  href : String
  id : String
deriving DecidableEq

/-- The mutable fields of an `EpubHandler` instance used by the embedded
operations: `book`/`rendition` as availability flags, the chapter list,
the `textContent` cache, the tracked blob URLs and `currentLocation`. -/
structure EpubState where
  book : Bool
  rendition : Bool
  chapters : List EpubChapter
  currentLocation : Option String
  textContent : List (Nat × String)
  imageBlobUrls : List String
deriving DecidableEq

/-- `EpubHandler.estimateTotalPages`, with `this.book`'s presence as a
flag and the chapter count as input.  The JS computes `length * 1.5` in
floating point; because `Math.max` with `baseEstimate = length * 2`
always selects the larger `baseEstimate`, the returned value is the
integer `length * 2` on that branch, so the `Nat` division below never
changes the result. -/
def estimateTotalPages (hasBook : Bool) (chapterCount : Nat) : Nat :=
  if !hasBook || chapterCount == 0 then 1
  else
    let baseEstimate := chapterCount * 2
    if 100 < chapterCount then max baseEstimate (chapterCount * 3 / 2)
    else if 50 < chapterCount then max baseEstimate (chapterCount * 2)
    else max baseEstimate (chapterCount * 3)

/-- The descriptor assembled by the real path of `EpubHandler.loadBook`:
unlike the PDF descriptors it does carry an `isLargeFile` key,
`chapters.length > 50 || estimatedPages > 500`. -/
def epubBookData (chapters : List EpubChapter) (estimatedPages : Nat) :
    BookData EpubChapter :=
  { chapters := chapters
  , totalPages := estimatedPages
  , isLargeFile := some (decide (50 < chapters.length) || decide (500 < estimatedPages)) }

/-- The text clean-up in `EpubHandler.getChapterText`: normalize
whitespace and trim (the intervening `replace(/\n\s*\n/g, '\n\n')` acts on
a string that no longer contains `\n` and is the identity there; it is
applied to the already whitespace-normalized text, on which no match can
start, so it is elided from the composition). -/
def epubCleanText (raw : String) : String :=
  String.mk (trimChars (normalizeWsChars raw.data))

/-- The mock chapter text template of `EpubHandler.getChapterText`. -/
def epubMockChapterText (title : String) : String :=
  title ++ "\n\n" ++
  "This is the text content of " ++ title ++
  " extracted from the EPUB file. In a real implementation, this would contain the actual chapter text for summary generation.\n\n" ++
  "The chapter contains detailed information about the topic, with multiple sections and subsections. It includes examples, explanations, and practical guidance for readers.\n\n" ++
  "This represents the actual textual content that would be used to generate meaningful summaries using AI."

/-- `EpubHandler.getChapterText`.  `extractReal i` is the oracle for the
whole real extraction path of chapter `i` (spine lookup, load, DOM text):
`some raw` when it reaches the clean-up with body text `raw`, `none` when
the spine item is missing or any step throws, in which case the source
falls back to the mock text.  The index guard throws first; both
successful paths write the cache before returning. -/
def epubGetChapterText (extractReal : Nat → Option String) (s : EpubState) (i : Nat) :
    Except String String × EpubState :=
  if h : i < s.chapters.length then
    match lookupCache s.textContent i with
    | some t => (.ok t, s)
    | none =>
      let chapter := s.chapters.get ⟨i, h⟩
      match (if s.book && chapter.href != "" then extractReal i else none) with
      | some raw =>
        let fullText := chapter.title ++ "\n\n" ++ epubCleanText raw
        (.ok fullText, { s with textContent := (i, fullText) :: s.textContent })
      | none =>
        let mockText := epubMockChapterText chapter.title
        (.ok mockText, { s with textContent := (i, mockText) :: s.textContent })
  else (.error "Invalid chapter index", s)

/-- `EpubHandler.destroy`: revoke every tracked blob URL and clear the
set, drop the book, clear chapters, location and the text cache.  The
second component is the list of URLs passed to `URL.revokeObjectURL`. -/
def epubDestroy (s : EpubState) : EpubState × List String :=
  ( { book := false
    , rendition := false
    , chapters := []
    , currentLocation := none
    , textContent := []
    , imageBlobUrls := [] }
  , s.imageBlobUrls )

/-- The string clean-up step of `EpubHandler.processHtmlContent` applied
to the serialized container markup: remove `<script...>...</script>` and
`<head...>...</head>` matches, then trim.  (The preceding DOM image-path
rewriting only touches `src` attributes of `img` elements and is treated
as the identity here.) -/
def processHtmlCleanup (s : String) : String :=
  trimString (stripElem "head" (stripElem "script" s))

/-- `EpubHandler.cleanHtmlContentBasic`: the fallback cleaner also strips
`<style...>...</style>` elements. -/
def cleanHtmlContentBasic (s : String) : String :=
  trimString (stripElem "head" (stripElem "style" (stripElem "script" s)))

/-! ## Renderer (`src/renderer.js`) -/

/-- A chapter as the renderer sees it: EPUB chapters carry no page range
(`pageStart` absent, i.e. `none`), PDF chapters carry both bounds. -/
structure NavChapter where
  title : String
  pageStart : Option Nat
  pageEnd : Option Nat
deriving DecidableEq

/-- The navigation fields of `EpubizonApp` read and written by
`goToChapter`. -/
structure NavState where
  currentChapter : Nat
  currentPage : Nat
  chapters : List NavChapter
deriving DecidableEq

/-- `EpubizonApp.goToChapter`.  The index comes from
`parseInt(e.target.dataset.index)` and is guarded by
`chapterIndex >= 0 && chapterIndex < this.chapters.length`; in range the
current chapter is set and, when the chapter's `pageStart` is truthy
(present and non-zero), the current page snaps to it;  out of range the
method does nothing. -/
def goToChapter (s : NavState) (chapterIndex : Int) : NavState :=
  if 0 ≤ chapterIndex ∧ chapterIndex < (s.chapters.length : Int) then
    let i := chapterIndex.toNat
    let s1 := { s with currentChapter := i }
    match s.chapters.get? i with
    | some c =>
      match c.pageStart with
      | some p => if p ≠ 0 then { s1 with currentPage := p } else s1
      | none => s1
    | none => s1
  else s

/-- What one rendering of the sidebar chapter list exposes: the half-open
window of chapter indices materialized as items, and the target ranges of
the leading and trailing jump affordances (absent when the window touches
the corresponding boundary). -/
structure ChapterListView where
  start : Nat
  stop : Nat
  jumpBefore : Option (Nat × Nat)
  jumpAfter : Option (Nat × Nat)
deriving DecidableEq

/-- The virtualized branch of `EpubizonApp.updateChaptersList` (taken when
`isLargeFile && chapters.length > 100`): `start = max(0, current - 25)`,
`end = min(length, start + 50)`; the leading affordance calls
`showChapterRange(0, 50)` and the trailing one
`showChapterRange(end, min(length, end + 50))`. -/
def updateChaptersListView (len cur : Nat) : ChapterListView :=
  let start := cur - 25
  let stop := min len (start + 50)
  { start := start
  , stop := stop
  , jumpBefore := if 0 < start then some (0, 50) else none
  , jumpAfter := if stop < len then some (stop, min len (stop + 50)) else none }

/-- `EpubizonApp.showChapterRange(start, end)`: items run from `start` to
`min(end, length)`; the leading affordance targets
`(max(0, start - 50), start)` and the trailing one
`(end, min(length, end + 50))`. -/
def showChapterRangeView (len s e : Nat) : ChapterListView :=
  { start := s
  , stop := min e len
  , jumpBefore := if 0 < s then some (s - 50, s) else none
  , jumpAfter := if e < len then some (e, min len (e + 50)) else none }

/-- The gate of the virtualized branch in `updateChaptersList`. -/
def usesVirtualWindow (isLargeFile : Bool) (chapterCount : Nat) : Bool :=
  isLargeFile && decide (100 < chapterCount)

/-- The adapter-handle fields of `EpubizonApp` relevant to load-time
teardown, with adapters identified by creation order. -/
structure AppAdapters where
  epubHandler : Option Nat
  pdfHandler : Option Nat
  nextId : Nat
deriving DecidableEq

/-- `EpubizonApp.loadEpub`: if a previous `this.epubHandler` exists its
`destroy()` is called, then a fresh `EpubHandler` is assigned.  The
second component lists the adapter ids destroyed during this load.
`this.pdfHandler` is never touched. -/
def loadEpubStep (a : AppAdapters) : AppAdapters × List Nat :=
  match a.epubHandler with
  | some h =>
    ({ a with epubHandler := some a.nextId, nextId := a.nextId + 1 }, [h])
  | none =>
    ({ a with epubHandler := some a.nextId, nextId := a.nextId + 1 }, [])

/-- `EpubizonApp.loadPdf`: a fresh `PdfHandler` is assigned with no
teardown of any kind; no `destroy()` call occurs on this path. -/
def loadPdfStep (a : AppAdapters) : AppAdapters × List Nat :=
  ({ a with pdfHandler := some a.nextId, nextId := a.nextId + 1 }, [])

/-- Adjacency check for a chapter list: each chapter starts on the page
right after its predecessor's last page. -/
def adjOk : List PdfChapter → Bool
  | a :: b :: t => (b.pageStart == a.pageEnd + 1) && adjOk (b :: t)
  | _ => true

/-- The properties claimed of `createChaptersFromPages`: a non-empty
list whose page ranges are adjacent (hence non-overlapping), starting at
page 1, ending at `totalPages`, every range but possibly the last of size
`max 1 (totalPages / 7)`, the first chapter titled Introduction and — when
there is more than one chapter — the last titled Conclusion. -/
def pdfPartitionSpec (tp : Nat) : Prop :=
  createChaptersFromPages tp ≠ [] ∧
  (∀ c, (createChaptersFromPages tp).head? = some c →
    c.pageStart = 1 ∧ c.title = "Introduction") ∧
  (∀ c, (createChaptersFromPages tp).getLast? = some c → c.pageEnd = tp) ∧
  adjOk (createChaptersFromPages tp) = true ∧
  (∀ c ∈ createChaptersFromPages tp, c.pageStart ≤ c.pageEnd) ∧
  (∀ c ∈ (createChaptersFromPages tp).dropLast,
    c.pageEnd + 1 = c.pageStart + max 1 (tp / 7)) ∧
  (1 < (createChaptersFromPages tp).length →
    ∀ c, (createChaptersFromPages tp).getLast? = some c → c.title = "Conclusion")

/-- The behaviour claimed of `goToChapter`: in range it sets the current
chapter (and snaps the current page to a defined `pageStart`, leaving it
alone when the chapter has none), out of range it changes nothing. -/
def goToChapterClaim (s : NavState) (chapterIndex : Int) : Prop :=
  (0 ≤ chapterIndex → chapterIndex < (s.chapters.length : Int) →
    (goToChapter s chapterIndex).currentChapter = chapterIndex.toNat ∧
    (goToChapter s chapterIndex).chapters = s.chapters ∧
    (∀ c, s.chapters.get? chapterIndex.toNat = some c →
      (∀ p, c.pageStart = some p → (goToChapter s chapterIndex).currentPage = p) ∧
      (c.pageStart = none → (goToChapter s chapterIndex).currentPage = s.currentPage))) ∧
  (¬(0 ≤ chapterIndex ∧ chapterIndex < (s.chapters.length : Int)) →
    goToChapter s chapterIndex = s)

/-- The behaviour claimed of `getUnitText` on both adapters: a first call
at a valid index succeeds with some text, that text is then stored in the
cache, and a second call — under any extraction oracle whatsoever, so
without re-extraction — returns exactly the stored text and leaves the
state untouched. -/
def textCacheClaim (extractP extractE : Nat → Option String)
    (ps : PdfState) (es : EpubState) (n i : Nat) : Prop :=
  (∃ t, (pdfGetPageText extractP ps n).1 = .ok t ∧
    lookupCache (pdfGetPageText extractP ps n).2.textContent n = some t ∧
    ∀ extract2, pdfGetPageText extract2 (pdfGetPageText extractP ps n).2 n
      = (.ok t, (pdfGetPageText extractP ps n).2)) ∧
  (∃ t, (epubGetChapterText extractE es i).1 = .ok t ∧
    lookupCache (epubGetChapterText extractE es i).2.textContent i = some t ∧
    ∀ extract2, epubGetChapterText extract2 (epubGetChapterText extractE es i).2 i
      = (.ok t, (epubGetChapterText extractE es i).2))

/-! ## Sample instances used by witnesses -/

/-- Oracle for a permanently failing (or absent) rendering library. -/
def noExtract : Nat → Option String := fun _ => none

/-- Render oracle for a permanently failing rendering library. -/
def noRender : Nat → Option (String × Nat × Nat) := fun _ => none

/-- A small `PdfHandler` state as left by a mock load of a 3-page file. -/
def samplePdfState : PdfState :=
  { hasDoc := false
  , hasLib := false
  , totalPages := 3
  , pages := [(612, 792), (612, 792), (612, 792)]
  , textContent := [] }

/-- A small `EpubHandler` state with one fallback chapter. -/
def sampleEpubState : EpubState :=
  { book := false
  , rendition := false
  , chapters := [{ title := "Chapter 1", href := "", id := "chapter-0" }]
  , currentLocation := none
  , textContent := []
  , imageBlobUrls := [] }

/-- Navigation state over two chapters with page ranges. -/
def sampleNavState : NavState :=
  { currentChapter := 0
  , currentPage := 1
  , chapters :=
      [ { title := "Introduction", pageStart := some 1, pageEnd := some 6 }
      , { title := "Conclusion", pageStart := some 7, pageEnd := some 9 } ] }

/-- A well-formed single-line element `<tag>body</tag>` as a character
list, used to state which elements the strip regexes remove. -/
def singleLineElem (tag body : List Char) : List Char :=
  '<' :: (tag ++ ('>' :: (body ++ ('<' :: '/' :: (tag ++ ['>'])))))

/-! ## Helper lemmas -/

/-- Unfolding equation for `buildChapters`. -/
theorem buildChapters_eq (tp cps i : Nat) :
    buildChapters tp cps i =
      if 0 < cps ∧ i < tp then mkPdfChapter tp cps i :: buildChapters tp cps (i + cps)
      else [] := by
  rw [buildChapters]
  simp

/-- Custom recursion principle following the page-range loop. -/
theorem buildChapters_rec (tp cps : Nat) (P : Nat → Prop)
    (base : ∀ i, ¬(0 < cps ∧ i < tp) → P i)
    (step : ∀ i, 0 < cps → i < tp → P (i + cps) → P i) :
    ∀ i, P i := by
  have key : ∀ n i, tp - i ≤ n → P i := by
    intro n
    induction n with
    | zero =>
      intro i hle
      by_cases hc : 0 < cps ∧ i < tp
      · exact absurd hc.2 (by omega)
      · exact base i hc
    | succ n ih =>
      intro i hle
      by_cases hc : 0 < cps ∧ i < tp
      · exact step i hc.1 hc.2 (ih (i + cps) (by omega))
      · exact base i hc
  intro i
  exact key (tp - i) i (by omega)

/-- Length of the synthesized chapter list: the ceiling of the remaining
page count divided by the range size. -/
theorem buildChapters_length (tp cps : Nat) (hc : 0 < cps) :
    ∀ i, (buildChapters tp cps i).length = (tp - i + cps - 1) / cps := by
  refine buildChapters_rec tp cps _ ?_ ?_
  · intro i hneg
    rw [buildChapters_eq, if_neg hneg]
    have h0 : tp - i = 0 := by
      rcases Nat.lt_or_ge i tp with h | h
      · exact absurd ⟨hc, h⟩ hneg
      · omega
    rw [h0, List.length_nil]
    symm
    apply Nat.div_eq_of_lt
    omega
  · intro i _ hit ih
    rw [buildChapters_eq, if_pos ⟨hc, hit⟩, List.length_cons, ih]
    rw [show tp - i + cps - 1 = (tp - i - 1) + cps by omega, Nat.add_div_right _ hc]
    congr 1
    by_cases hrc : cps < tp - i
    · congr 1
      omega
    · rw [Nat.div_eq_of_lt (by omega), Nat.div_eq_of_lt (by omega)]

/-! ## C1 -/

/-- C1 counterexample: at 150 chapters the claimed factor 1.5 would give
225 pages, but the code returns `max(2 * 150, 1.5 * 150) = 300` — the base
estimate of twice the chapter count dominates the 1.5 factor. -/
theorem C1_counterexample :
    estimateTotalPages true 150 = 300 ∧ estimateTotalPages true 150 ≠ 225 := by
  decide

/-- C1 (amended): for a loaded EPUB with a non-empty chapter list the
estimate is chapter count times 3 for at most 50 chapters and chapter
count times 2 above 50 chapters; the 1.5 step above 100 chapters never
takes effect because `Math.max` with the base estimate `2 * chapterCount`
clamps it away. -/
theorem C1_estimate_amended (n : Nat) (h : 0 < n) :
    estimateTotalPages true n = if n ≤ 50 then n * 3 else n * 2 := by
  have hne : (n == 0) = false := by
    simp only [beq_eq_false_iff_ne, ne_eq]
    omega
  unfold estimateTotalPages
  simp only [Bool.not_true, Bool.false_or, hne, Bool.false_eq_true, if_false, Nat.max_def]
  split_ifs <;> omega

/-- C1 witness: concrete application at 10 chapters. -/
theorem C1_estimate_amended_witness :
    0 < 10 ∧ estimateTotalPages true 10 = if 10 ≤ 50 then 10 * 3 else 10 * 2 :=
  ⟨by decide, C1_estimate_amended 10 (by decide)⟩

/-! ## C2 -/

/-- C2: opening a PDF never tears the previous adapter down.  Starting
from a fresh app, a PDF load followed by another PDF load destroys
nothing, although the first load left an active adapter (id 0); likewise
a PDF load right after an EPUB load destroys nothing, leaving the EPUB
adapter alive.  This contradicts the claimed mandatory teardown before
every replacement. -/
theorem C2_no_teardown_on_pdf_load :
    (loadPdfStep (loadPdfStep ⟨none, none, 0⟩).1).2 = [] ∧
    (loadPdfStep ⟨none, none, 0⟩).1.pdfHandler = some 0 ∧
    (loadPdfStep (loadEpubStep ⟨none, none, 0⟩).1).2 = [] ∧
    (loadEpubStep ⟨none, none, 0⟩).1.epubHandler = some 0 := by
  decide

/-! ## C3 -/

/-- C3 counterexample: with 300 chapters and current chapter 150 the
rendered window is [125, 175), so the claim says the leading affordance
re-centers to [75, 125); the code instead hard-wires it to [0, 50). -/
theorem C3_counterexample :
    (updateChaptersListView 300 150).start = 125 ∧
    (updateChaptersListView 300 150).jumpBefore = some (0, 50) ∧
    (updateChaptersListView 300 150).jumpBefore ≠ some (125 - 50, 125) := by
  decide

/-- C3 (amended): windows rendered by `showChapterRange` behave as
claimed — the leading affordance targets the 50-wide window ending at the
window start and the trailing affordance the window beginning at its end;
for the window initially rendered around the current chapter by
`updateChaptersList`, the trailing affordance behaves as claimed but the
leading affordance always jumps to the fixed window [0, 50). -/
theorem C3_window_amended (len s e cur : Nat)
    (hs : 0 < s) (he : e < len)
    (hub : 0 < (updateChaptersListView len cur).start)
    (hua : (updateChaptersListView len cur).stop < len) :
    (showChapterRangeView len s e).jumpBefore = some (s - 50, s) ∧
    (showChapterRangeView len s e).jumpAfter = some (e, min len (e + 50)) ∧
    (updateChaptersListView len cur).jumpBefore = some (0, 50) ∧
    (updateChaptersListView len cur).jumpAfter =
      some ((updateChaptersListView len cur).stop,
            min len ((updateChaptersListView len cur).stop + 50)) := by
  refine ⟨?_, ?_, ?_, ?_⟩
  · simp only [showChapterRangeView]
    rw [if_pos hs]
  · simp only [showChapterRangeView]
    rw [if_pos he]
  · simp only [updateChaptersListView] at hub ⊢
    rw [if_pos hub]
  · simp only [updateChaptersListView] at hua ⊢
    rw [if_pos hua]

/-- C3 witness: the spec's own example, 300 chapters and current chapter
150, with a `showChapterRange` window [125, 175). -/
theorem C3_window_amended_witness :
    0 < 125 ∧ 175 < 300 ∧
    0 < (updateChaptersListView 300 150).start ∧
    (updateChaptersListView 300 150).stop < 300 ∧
    ((showChapterRangeView 300 125 175).jumpBefore = some (125 - 50, 125) ∧
     (showChapterRangeView 300 125 175).jumpAfter = some (175, min 300 (175 + 50)) ∧
     (updateChaptersListView 300 150).jumpBefore = some (0, 50) ∧
     (updateChaptersListView 300 150).jumpAfter =
       some ((updateChaptersListView 300 150).stop,
             min 300 ((updateChaptersListView 300 150).stop + 50))) :=
  ⟨by decide, by decide, by decide, by decide,
   C3_window_amended 300 125 175 150 (by decide) (by decide) (by decide) (by decide)⟩

/-! ## C8 -/

/-- C8: `destroy()` empties the text cache on both adapters, the EPUB
adapter revokes exactly the tracked blob URLs and empties the set, and a
second `destroy()` succeeds, changes nothing and revokes nothing
(destroy composed with destroy equals destroy). -/
theorem C8_destroy_idempotent (ps : PdfState) (es : EpubState) :
    (pdfDestroy ps).textContent = [] ∧
    pdfDestroy (pdfDestroy ps) = pdfDestroy ps ∧
    (epubDestroy es).1.textContent = [] ∧
    (epubDestroy es).1.imageBlobUrls = [] ∧
    (epubDestroy es).2 = es.imageBlobUrls ∧
    epubDestroy (epubDestroy es).1 = ((epubDestroy es).1, []) :=
  ⟨rfl, rfl, rfl, rfl, rfl, rfl⟩

/-! ## C10 -/

/-- C10: the descriptor produced by `PdfHandler.loadBook` carries no
`isLargeFile` key on either the real or the mock path, the synthesized
chapter list never exceeds 13 entries, and therefore the virtualization
gate (`isLargeFile && chapters.length > 100`) is false for a PDF document
whatever stale `isLargeFile` value the app holds — the PDF chapter list
is always rendered in full. -/
theorem C10_pdf_never_virtualized (ok : Bool) (numPages : Nat) (h : 1 ≤ numPages) :
    (pdfLoadBook ok numPages).isLargeFile = none ∧
    (pdfLoadBook ok numPages).chapters.length ≤ 13 ∧
    ∀ isLarge : Bool,
      usesVirtualWindow isLarge (pdfLoadBook ok numPages).chapters.length = false := by
  have hlen : (pdfLoadBook ok numPages).chapters.length ≤ 13 := by
    cases ok with
    | false =>
      show pdfMockChapters.length ≤ 13
      decide
    | true =>
      show (createChaptersFromPages numPages).length ≤ 13
      unfold createChaptersFromPages
      have hc : 0 < max 1 (numPages / 7) := by omega
      rw [buildChapters_length _ _ hc 0]
      have h14 : (numPages - 0 + max 1 (numPages / 7) - 1) / max 1 (numPages / 7) < 14 := by
        rw [Nat.div_lt_iff_lt_mul hc]
        omega
      omega
  refine ⟨?_, hlen, ?_⟩
  · cases ok <;> rfl
  · intro isLarge
    unfold usesVirtualWindow
    have hd : decide (100 < (pdfLoadBook ok numPages).chapters.length) = false := by
      simp only [decide_eq_false_iff_not]
      omega
    rw [hd, Bool.and_false]

/-- C10 witness: the 45-page document of the spec's own example. -/
theorem C10_pdf_never_virtualized_witness :
    1 ≤ 45 ∧
    ((pdfLoadBook true 45).isLargeFile = none ∧
     (pdfLoadBook true 45).chapters.length ≤ 13 ∧
     ∀ isLarge : Bool,
       usesVirtualWindow isLarge (pdfLoadBook true 45).chapters.length = false) :=
  ⟨by decide, C10_pdf_never_virtualized true 45 (by decide)⟩

/-! ## C4 -/

/-- Extending an adjacent list by a chapter that meets its head. -/
theorem adjOk_cons (a : PdfChapter) (l : List PdfChapter)
    (h1 : ∀ b, l.head? = some b → b.pageStart = a.pageEnd + 1)
    (h2 : adjOk l = true) : adjOk (a :: l) = true := by
  cases l with
  | nil => rfl
  | cons b t =>
    have hb := h1 b rfl
    simp only [adjOk, Bool.and_eq_true, beq_iff_eq]
    exact ⟨hb, h2⟩

/-- The synthesized ranges are adjacent from any loop index on. -/
theorem buildChapters_adjOk (tp cps : Nat) :
    ∀ i, adjOk (buildChapters tp cps i) = true := by
  refine buildChapters_rec tp cps _ ?_ ?_
  · intro i hneg
    rw [buildChapters_eq, if_neg hneg]
    rfl
  · intro i hcps hit ih
    rw [buildChapters_eq, if_pos ⟨hcps, hit⟩]
    refine adjOk_cons _ _ ?_ ih
    intro b hb
    rw [buildChapters_eq] at hb
    by_cases h2 : i + cps < tp
    · rw [if_pos ⟨hcps, h2⟩] at hb
      simp only [List.head?_cons, Option.some_inj] at hb
      subst hb
      simp only [mkPdfChapter]
      omega
    · rw [if_neg (fun hx => h2 hx.2)] at hb
      exact absurd hb (by simp)

/-- The last synthesized chapter comes from a loop index `j` whose range
reaches the final page. -/
theorem buildChapters_getLast (tp cps : Nat) :
    ∀ i, 0 < cps → i < tp →
      ∃ j, i ≤ j ∧ j < tp ∧ tp ≤ j + cps ∧
        (buildChapters tp cps i).getLast? = some (mkPdfChapter tp cps j) := by
  refine buildChapters_rec tp cps _ ?_ ?_
  · intro i hneg hcps hit
    exact absurd ⟨hcps, hit⟩ hneg
  · intro i hcps hit ih _ _
    rw [buildChapters_eq, if_pos ⟨hcps, hit⟩]
    by_cases h2 : i + cps < tp
    · obtain ⟨j, hj1, hj2, hj3, hj4⟩ := ih hcps h2
      refine ⟨j, by omega, hj2, hj3, ?_⟩
      obtain ⟨b, t, hbt⟩ : ∃ b t, buildChapters tp cps (i + cps) = b :: t := by
        rw [buildChapters_eq, if_pos ⟨hcps, h2⟩]
        exact ⟨_, _, rfl⟩
      rw [hbt, List.getLast?_cons_cons, ← hbt]
      exact hj4
    · have h3 : buildChapters tp cps (i + cps) = [] := by
        rw [buildChapters_eq, if_neg (fun hx => h2 hx.2)]
      rw [h3]
      exact ⟨i, le_rfl, hit, by omega, rfl⟩

/-- Every chapter except possibly the last spans exactly `cps` pages. -/
theorem buildChapters_sizes (tp cps : Nat) :
    ∀ i, ∀ c ∈ (buildChapters tp cps i).dropLast, c.pageEnd + 1 = c.pageStart + cps := by
  refine buildChapters_rec tp cps _ ?_ ?_
  · intro i hneg c hcmem
    rw [buildChapters_eq, if_neg hneg] at hcmem
    exact absurd hcmem (by simp)
  · intro i hcps hit ih c hcmem
    rw [buildChapters_eq, if_pos ⟨hcps, hit⟩] at hcmem
    by_cases h2 : i + cps < tp
    · obtain ⟨b, t, hbt⟩ : ∃ b t, buildChapters tp cps (i + cps) = b :: t := by
        rw [buildChapters_eq, if_pos ⟨hcps, h2⟩]
        exact ⟨_, _, rfl⟩
      rw [hbt] at hcmem
      rw [show (mkPdfChapter tp cps i :: b :: t).dropLast
            = mkPdfChapter tp cps i :: (b :: t).dropLast from rfl] at hcmem
      rcases List.mem_cons.mp hcmem with hc | hc
      · subst hc
        simp only [mkPdfChapter]
        omega
      · rw [← hbt] at hc
        exact ih c hc
    · have h3 : buildChapters tp cps (i + cps) = [] := by
        rw [buildChapters_eq, if_neg (fun hx => h2 hx.2)]
      rw [h3] at hcmem
      exact absurd hcmem (by simp)

/-- Every synthesized chapter has a non-empty range starting after the
loop index it was built from. -/
theorem buildChapters_bounds (tp cps : Nat) :
    ∀ i, ∀ c ∈ buildChapters tp cps i, i + 1 ≤ c.pageStart ∧ c.pageStart ≤ c.pageEnd := by
  refine buildChapters_rec tp cps _ ?_ ?_
  · intro i hneg c hcmem
    rw [buildChapters_eq, if_neg hneg] at hcmem
    exact absurd hcmem (by simp)
  · intro i hcps hit ih c hcmem
    rw [buildChapters_eq, if_pos ⟨hcps, hit⟩] at hcmem
    rcases List.mem_cons.mp hcmem with hc | hc
    · subst hc
      simp only [mkPdfChapter]
      omega
    · have := ih c hc
      omega

/-- C4: for every positive page count the synthesized chapter ranges are
contiguous, non-overlapping, cover pages 1..totalPages exactly, have size
`max(1, totalPages / 7)` except possibly the last, the first chapter is
titled Introduction and, when there is more than one chapter, the last is
titled Conclusion. -/
theorem C4_pdf_partition (tp : Nat) (h : 1 ≤ tp) : pdfPartitionSpec tp := by
  have hc : 0 < max 1 (tp / 7) := by omega
  have hhead : ∃ rest,
      createChaptersFromPages tp = mkPdfChapter tp (max 1 (tp / 7)) 0 :: rest := by
    unfold createChaptersFromPages
    rw [buildChapters_eq, if_pos ⟨hc, by omega⟩]
    exact ⟨_, rfl⟩
  obtain ⟨rest, hrest⟩ := hhead
  have hlast := buildChapters_getLast tp (max 1 (tp / 7)) 0 hc (by omega)
  obtain ⟨j, _, hj2, hj3, hj4⟩ := hlast
  refine ⟨?_, ?_, ?_, ?_, ?_, ?_, ?_⟩
  · rw [hrest]
    simp
  · intro c hcm
    rw [hrest] at hcm
    simp only [List.head?_cons, Option.some_inj] at hcm
    subst hcm
    exact ⟨rfl, rfl⟩
  · intro c hcm
    unfold createChaptersFromPages at hcm
    rw [hj4] at hcm
    simp only [Option.some_inj] at hcm
    subst hcm
    simp only [mkPdfChapter]
    omega
  · exact buildChapters_adjOk tp (max 1 (tp / 7)) 0
  · intro c hcm
    exact (buildChapters_bounds tp (max 1 (tp / 7)) 0 c hcm).2
  · intro c hcm
    exact buildChapters_sizes tp (max 1 (tp / 7)) 0 c hcm
  · intro hlen c hcm
    unfold createChaptersFromPages at hcm
    rw [hj4] at hcm
    simp only [Option.some_inj] at hcm
    subst hcm
    have hcpslt : max 1 (tp / 7) < tp := by
      unfold createChaptersFromPages at hlen
      rw [buildChapters_length tp (max 1 (tp / 7)) hc 0] at hlen
      have h2c : 2 ≤ (tp - 0 + max 1 (tp / 7) - 1) / max 1 (tp / 7) := hlen
      rw [Nat.le_div_iff_mul_le hc] at h2c
      omega
    have hj0 : j ≠ 0 := by
      intro hj
      subst hj
      omega
    simp only [mkPdfChapter]
    rw [if_neg (by omega), if_pos (by omega)]

/-- C4 witness: concrete application at the spec's 45-page example. -/
theorem C4_pdf_partition_witness : 1 ≤ 45 ∧ pdfPartitionSpec 45 :=
  ⟨by decide, C4_pdf_partition 45 (by decide)⟩

/-! ## C6 -/

/-- C6: for an in-range index `goToChapter` sets the current chapter and,
when that chapter defines a `pageStart`, also the current page; out of
range it leaves the whole state unchanged.  The hypothesis that no
chapter carries `pageStart = 0` reflects every chapter the program builds
(PDF ranges are 1-based, EPUB chapters carry no `pageStart`); it is what
lets the source's truthiness test `if (chapter.pageStart)` coincide with
definedness. -/
theorem C6_goToChapter_spec (s : NavState) (chapterIndex : Int)
    (hwf : ∀ c ∈ s.chapters, c.pageStart ≠ some 0) :
    goToChapterClaim s chapterIndex := by
  constructor
  · intro h1 h2
    have hcond : 0 ≤ chapterIndex ∧ chapterIndex < (s.chapters.length : Int) := ⟨h1, h2⟩
    have hlt : chapterIndex.toNat < s.chapters.length := by omega
    rcases hg : s.chapters.get? chapterIndex.toNat with _ | c
    · rw [List.get?_eq_none] at hg
      omega
    · have hmem : c ∈ s.chapters := List.get?_mem hg
      rcases hps : c.pageStart with _ | p
      · refine ⟨?_, ?_, ?_⟩
        · simp only [goToChapter, if_pos hcond, hg, hps]
        · simp only [goToChapter, if_pos hcond, hg, hps]
        · intro d hd
          injection hd with hd
          subst hd
          constructor
          · intro p hp
            rw [hps] at hp
            exact absurd hp (by simp)
          · intro _
            simp only [goToChapter, if_pos hcond, hg, hps]
      · have hp0 : p ≠ 0 := fun h0 => hwf c hmem (h0 ▸ hps)
        refine ⟨?_, ?_, ?_⟩
        · simp only [goToChapter, if_pos hcond, hg, hps, if_pos hp0]
        · simp only [goToChapter, if_pos hcond, hg, hps, if_pos hp0]
        · intro d hd
          injection hd with hd
          subst hd
          constructor
          · intro q hq
            rw [hps, Option.some_inj] at hq
            subst hq
            simp only [goToChapter, if_pos hcond, hg, hps, if_pos hp0]
          · intro hn
            rw [hps] at hn
            exact absurd hn (by simp)
  · intro hcond
    simp only [goToChapter, if_neg hcond]

/-- C6 witness: concrete application at chapter index 1 of the sample
navigation state. -/
theorem C6_goToChapter_spec_witness :
    (∀ c ∈ sampleNavState.chapters, c.pageStart ≠ some 0) ∧
    goToChapterClaim sampleNavState 1 :=
  ⟨by decide, C6_goToChapter_spec sampleNavState 1 (by decide)⟩

/-! ## C7 -/

/-- C7: for page numbers outside [1, totalPages] both `renderPage` and
`getPageText` throw the out-of-range error, and the handler state — in
particular the text cache — is returned unmodified. -/
theorem C7_out_of_range_rejected (extractReal : Nat → Option String)
    (renderReal : Nat → Option (String × Nat × Nat)) (s : PdfState) (n : Nat)
    (h : n < 1 ∨ s.totalPages < n) :
    pdfGetPageText extractReal s n = (.error "Invalid page number", s) ∧
    pdfRenderPage renderReal s n = (.error "Invalid page number", s) := by
  constructor
  · simp only [pdfGetPageText, if_pos h]
  · simp only [pdfRenderPage, if_pos h]

/-- C7 witness: page 0 of the sample 3-page handler state. -/
theorem C7_out_of_range_rejected_witness :
    ((0 : Nat) < 1 ∨ samplePdfState.totalPages < 0) ∧
    pdfGetPageText noExtract samplePdfState 0 = (.error "Invalid page number", samplePdfState) ∧
    pdfRenderPage noRender samplePdfState 0 = (.error "Invalid page number", samplePdfState) :=
  ⟨Or.inl (by decide),
   (C7_out_of_range_rejected noExtract noRender samplePdfState 0 (Or.inl (by decide))).1,
   (C7_out_of_range_rejected noExtract noRender samplePdfState 0 (Or.inl (by decide))).2⟩

/-! ## C5 -/

/-- C5: `getPageText`/`getChapterText` at a valid unit index succeed, the
first call stores its result in the text cache, and the immediately
repeated call returns the identical string straight from the cache — its
result does not depend on the extraction oracle and it performs no state
change. -/
theorem C5_unit_text_cached (extractP extractE : Nat → Option String)
    (ps : PdfState) (es : EpubState) (n i : Nat)
    (h1 : 1 ≤ n) (h2 : n ≤ ps.totalPages) (h3 : i < es.chapters.length) :
    textCacheClaim extractP extractE ps es n i := by
  have hitP : ∀ (ex : Nat → Option String) (s' : PdfState) (t : String),
      ¬(n < 1 ∨ s'.totalPages < n) → lookupCache s'.textContent n = some t →
      pdfGetPageText ex s' n = (.ok t, s') := by
    intro ex s' t hg' hl
    simp only [pdfGetPageText, if_neg hg', hl]
  have hitE : ∀ (ex : Nat → Option String) (s' : EpubState) (t : String)
      (h' : i < s'.chapters.length), lookupCache s'.textContent i = some t →
      epubGetChapterText ex s' i = (.ok t, s') := by
    intro ex s' t h' hl
    simp only [epubGetChapterText, dif_pos h', hl]
  have hg : ¬(n < 1 ∨ ps.totalPages < n) := by omega
  constructor
  · rcases hl : lookupCache ps.textContent n with _ | t
    · rcases hx : (if ps.hasDoc && ps.hasLib then extractP n else none) with _ | raw
      · have hfirst : pdfGetPageText extractP ps n =
            (.ok (mockExtractPageText n),
             { ps with textContent := (n, mockExtractPageText n) :: ps.textContent }) := by
          simp only [pdfGetPageText, if_neg hg, hl, hx]
        refine ⟨mockExtractPageText n, ?_, ?_, ?_⟩
        · rw [hfirst]
        · rw [hfirst]
          simp [lookupCache]
        · intro ex2
          rw [hfirst]
          exact hitP ex2 _ _ hg (by simp [lookupCache])
      · have hfirst : pdfGetPageText extractP ps n =
            (.ok (pdfCleanText raw),
             { ps with textContent := (n, pdfCleanText raw) :: ps.textContent }) := by
          simp only [pdfGetPageText, if_neg hg, hl, hx]
        refine ⟨pdfCleanText raw, ?_, ?_, ?_⟩
        · rw [hfirst]
        · rw [hfirst]
          simp [lookupCache]
        · intro ex2
          rw [hfirst]
          exact hitP ex2 _ _ hg (by simp [lookupCache])
    · have hfirst : pdfGetPageText extractP ps n = (.ok t, ps) := by
        simp only [pdfGetPageText, if_neg hg, hl]
      refine ⟨t, ?_, ?_, ?_⟩
      · rw [hfirst]
      · rw [hfirst]
        exact hl
      · intro ex2
        rw [hfirst]
        exact hitP ex2 ps t hg hl
  · rcases hl : lookupCache es.textContent i with _ | t
    · rcases hx : (if es.book && (es.chapters.get ⟨i, h3⟩).href != "" then extractE i else none)
        with _ | raw
      · have hfirst : epubGetChapterText extractE es i =
            (.ok (epubMockChapterText (es.chapters.get ⟨i, h3⟩).title),
             { es with textContent :=
                 (i, epubMockChapterText (es.chapters.get ⟨i, h3⟩).title) :: es.textContent }) := by
          simp only [epubGetChapterText, dif_pos h3, hl, hx]
        refine ⟨epubMockChapterText (es.chapters.get ⟨i, h3⟩).title, ?_, ?_, ?_⟩
        · rw [hfirst]
        · rw [hfirst]
          simp [lookupCache]
        · intro ex2
          rw [hfirst]
          exact hitE ex2 _ _ h3 (by simp [lookupCache])
      · have hfirst : epubGetChapterText extractE es i =
            (.ok ((es.chapters.get ⟨i, h3⟩).title ++ "\n\n" ++ epubCleanText raw),
             { es with textContent :=
                 (i, (es.chapters.get ⟨i, h3⟩).title ++ "\n\n" ++ epubCleanText raw)
                   :: es.textContent }) := by
          simp only [epubGetChapterText, dif_pos h3, hl, hx]
        refine ⟨(es.chapters.get ⟨i, h3⟩).title ++ "\n\n" ++ epubCleanText raw, ?_, ?_, ?_⟩
        · rw [hfirst]
        · rw [hfirst]
          simp [lookupCache]
        · intro ex2
          rw [hfirst]
          exact hitE ex2 _ _ h3 (by simp [lookupCache])
    · have hfirst : epubGetChapterText extractE es i = (.ok t, es) := by
        simp only [epubGetChapterText, dif_pos h3, hl]
      refine ⟨t, ?_, ?_, ?_⟩
      · rw [hfirst]
      · rw [hfirst]
        exact hl
      · intro ex2
        rw [hfirst]
        exact hitE ex2 es t h3 hl

/-- C5 witness: page 1 resp. chapter 0 of the sample handler states under
the failing-library oracle. -/
theorem C5_unit_text_cached_witness :
    1 ≤ 1 ∧ 1 ≤ samplePdfState.totalPages ∧ 0 < sampleEpubState.chapters.length ∧
    textCacheClaim noExtract noExtract samplePdfState sampleEpubState 1 0 :=
  ⟨by decide, by decide, by decide,
   C5_unit_text_cached noExtract noExtract samplePdfState sampleEpubState 1 0
     (by decide) (by decide) (by decide)⟩

/-! ## C9 -/

/-- Round trip of `Char.ofNat` on valid code points. -/
theorem char_toNat_ofNat (n : Nat) (h : Nat.isValidChar n) : (Char.ofNat n).toNat = n := by
  simp [Char.ofNat, h, Char.ofNatAux, Char.toNat, UInt32.toNat]

/-- Only the character `<` itself lower-cases to `<`. -/
theorem toLower_eq_lt (c : Char) (h : c.toLower = '<') : c = '<' := by
  by_cases hr : c.toNat ≥ 65 ∧ c.toNat ≤ 90
  · exfalso
    have hv : Nat.isValidChar (c.toNat + 32) := Or.inl (by omega)
    have heq : c.toLower = Char.ofNat (c.toNat + 32) := by
      simp only [Char.toLower]
      rw [if_pos hr]
    rw [heq] at h
    have h2 := congrArg Char.toNat h
    rw [char_toNat_ofNat _ hv] at h2
    have h60 : Char.toNat '<' = 60 := by decide
    rw [h60] at h2
    omega
  · have heq : c.toLower = c := by
      simp only [Char.toLower]
      rw [if_neg hr]
    rw [heq] at h
    exact h

/-- A successful case-insensitive literal match leaves a suffix. -/
theorem matchCI_suffix : ∀ (ps cs rest : List Char), matchCI ps cs = some rest → rest <:+ cs := by
  intro ps
  induction ps with
  | nil =>
    intro cs rest h
    simp only [matchCI, Option.some_inj] at h
    subst h
    exact List.suffix_rfl
  | cons p ps ih =>
    intro cs rest h
    cases cs with
    | nil => exact absurd h (by simp [matchCI])
    | cons c cs2 =>
      simp only [matchCI] at h
      split at h
      · exact (ih cs2 rest h).trans (List.suffix_cons c cs2)
      · exact absurd h (by simp)

/-- A found closing tag leaves a suffix. -/
theorem findCloseTag_suffix (close : List Char) :
    ∀ (cs rest : List Char), findCloseTag close cs = some rest → rest <:+ cs := by
  intro cs
  induction cs with
  | nil =>
    intro rest h
    exact absurd h (by simp [findCloseTag])
  | cons c cs2 ih =>
    intro rest h
    simp only [findCloseTag] at h
    split at h
    · rename_i r hm
      injection h with h
      subst h
      exact matchCI_suffix close (c :: cs2) _ hm
    · split at h
      · exact absurd h (by simp)
      · exact (ih rest h).trans (List.suffix_cons c cs2)

/-- A matched element at the head of a cons leaves a suffix of the tail. -/
theorem tryMatchElem_suffix_tail (tag : List Char) (c : Char) (cs rest : List Char)
    (h : tryMatchElem tag (c :: cs) = some rest) : rest <:+ cs := by
  unfold tryMatchElem at h
  split at h
  · exact absurd h (by simp)
  · rename_i r1 hm1
    have hr1 : r1 <:+ cs := by
      simp only [matchCI] at hm1
      split at hm1
      · exact matchCI_suffix tag cs r1 hm1
      · exact absurd hm1 (by simp)
    split at h
    · exact absurd h (by simp)
    · rename_i x r2 hdw
      have hr2 : r2 <:+ r1 := by
        have hsfx : r1.dropWhile (fun d => d != '>') <:+ r1 := List.dropWhile_suffix _
        rw [hdw] at hsfx
        exact (List.suffix_cons x r2).trans hsfx
      exact ((findCloseTag_suffix _ r2 rest h).trans hr2).trans hr1

/-- One strip pass only deletes characters: the output is a sublist of
the input. -/
theorem stripElemAux_sublist (tag : List Char) :
    ∀ (fuel : Nat) (cs : List Char), (stripElemAux tag fuel cs).Sublist cs := by
  intro fuel
  induction fuel with
  | zero =>
    intro cs
    exact List.Sublist.refl _
  | succ fuel ih =>
    intro cs
    cases cs with
    | nil => exact List.Sublist.refl _
    | cons c cs2 =>
      simp only [stripElemAux]
      rcases hm : tryMatchElem tag (c :: cs2) with _ | rest
      · exact (ih cs2).cons₂ c
      · exact (ih rest).trans
          ((tryMatchElem_suffix_tail tag c cs2 rest hm).sublist.trans
            (List.sublist_cons_self c cs2))

/-- Trimming only deletes characters. -/
theorem trimChars_sublist (l : List Char) : (trimChars l).Sublist l := by
  unfold trimChars
  have d2 : ((l.dropWhile isWsChar).reverse.dropWhile isWsChar).Sublist
      (l.dropWhile isWsChar).reverse := List.dropWhile_sublist _
  have d2r := d2.reverse
  rw [List.reverse_reverse] at d2r
  exact d2r.trans (List.dropWhile_sublist _)

/-- The display clean-up only deletes characters from the markup. -/
theorem processHtmlCleanup_sublist (s : String) :
    (processHtmlCleanup s).data.Sublist s.data :=
  (trimChars_sublist _).trans ((stripElemAux_sublist _ _ _).trans (stripElemAux_sublist _ _ _))

/-- The fallback clean-up only deletes characters from the markup. -/
theorem cleanHtmlContentBasic_sublist (s : String) :
    (cleanHtmlContentBasic s).data.Sublist s.data :=
  (trimChars_sublist _).trans ((stripElemAux_sublist _ _ _).trans
    ((stripElemAux_sublist _ _ _).trans (stripElemAux_sublist _ _ _)))

/-- The strip scanner does not depend on the fuel once the fuel covers
the input length. -/
theorem stripElemAux_fuel (tag : List Char) :
    ∀ (f1 f2 : Nat) (cs : List Char), cs.length ≤ f1 → cs.length ≤ f2 →
      stripElemAux tag f1 cs = stripElemAux tag f2 cs := by
  intro f1
  induction f1 with
  | zero =>
    intro f2 cs h1 _
    have hnil : cs = [] := List.length_eq_zero.mp (by omega)
    subst hnil
    cases f2 <;> rfl
  | succ f1 ih =>
    intro f2 cs h1 h2
    cases cs with
    | nil => cases f2 <;> rfl
    | cons c cs2 =>
      cases f2 with
      | zero =>
        exfalso
        simp at h2
      | succ f2 =>
        simp only [stripElemAux]
        rcases hm : tryMatchElem tag (c :: cs2) with _ | rest
        · have := ih f2 cs2 (by simp only [List.length_cons] at h1; omega)
            (by simp only [List.length_cons] at h2; omega)
          rw [this]
        · have hlen : rest.length ≤ cs2.length :=
            (tryMatchElem_suffix_tail tag c cs2 rest hm).length_le
          exact ih f2 rest (by simp only [List.length_cons] at h1; omega)
            (by simp only [List.length_cons] at h2; omega)

/-- A case-insensitive literal always matches itself. -/
theorem matchCI_self (l r : List Char) : matchCI l (l ++ r) = some r := by
  induction l with
  | nil => rfl
  | cons c l ih => simp [matchCI, ih]

/-- A case-insensitive literal fails on a first-character mismatch. -/
theorem matchCI_head_ne (p : Char) (ps : List Char) (c : Char) (cs : List Char)
    (h : ¬ p.toLower = c.toLower) : matchCI (p :: ps) (c :: cs) = none := by
  have hb : (p.toLower == c.toLower) = false := beq_eq_false_iff_ne.mpr h
  simp [matchCI, hb]

/-- One step of the closing-tag scan at its own literal. -/
theorem findCloseTag_self (c : Char) (cl post : List Char) :
    findCloseTag (c :: cl) (c :: (cl ++ post)) = some post := by
  simp only [findCloseTag]
  rw [← List.cons_append, matchCI_self]

/-- The lazy content scan runs through a line of non-`<` characters and
stops at the closing literal. -/
theorem findCloseTag_through (tagc body post : List Char)
    (hbody : ∀ c ∈ body, c.toLower ≠ '<' ∧ c ≠ '\n' ∧ c ≠ '\r') :
    findCloseTag ('<' :: tagc) (body ++ ('<' :: (tagc ++ post))) = some post := by
  induction body with
  | nil =>
    rw [List.nil_append]
    exact findCloseTag_self '<' tagc post
  | cons b body ih =>
    have hb := hbody b (List.mem_cons_self b body)
    rw [List.cons_append]
    have hm : matchCI ('<' :: tagc) (b :: (body ++ ('<' :: (tagc ++ post)))) = none := by
      apply matchCI_head_ne
      have hlt : Char.toLower '<' = '<' := by decide
      rw [hlt]
      exact fun he => hb.1 he.symm
    have hcond : (b == '\n' || b == '\r') = false := by
      simp [hb.2.1, hb.2.2]
    simp only [findCloseTag, hm, hcond, Bool.false_eq_true, if_false]
    exact ih (fun c hc => hbody c (List.mem_cons_of_mem b hc))

/-- Reduction of the element matcher once the open-tag literal matched. -/
theorem tryMatchElem_eq_of (tag l r1 : List Char)
    (h : matchCI ('<' :: tag) l = some r1) :
    tryMatchElem tag l =
      match r1.dropWhile (fun c => c != '>') with
      | [] => none
      | _ :: r2 => findCloseTag ('<' :: '/' :: (tag ++ ['>'])) r2 := by
  unfold tryMatchElem
  rw [h]

/-- The whole element regex matches a well-formed single-line element at
the head of the input and consumes exactly it. -/
theorem tryMatchElem_at (tag body post : List Char)
    (hbody : ∀ c ∈ body, c.toLower ≠ '<' ∧ c ≠ '\n' ∧ c ≠ '\r') :
    tryMatchElem tag (singleLineElem tag body ++ post) = some post := by
  have hmc : matchCI ('<' :: tag) (singleLineElem tag body ++ post)
      = some ('>' :: (body ++ ('<' :: (('/' :: (tag ++ ['>'])) ++ post)))) := by
    rw [show singleLineElem tag body ++ post
          = ('<' :: tag) ++ ('>' :: (body ++ ('<' :: (('/' :: (tag ++ ['>'])) ++ post))))
        from by simp [singleLineElem]]
    exact matchCI_self _ _
  rw [tryMatchElem_eq_of tag _ _ hmc]
  have hgt : (('>' : Char) != '>') = false := by decide
  simp only [List.dropWhile_cons, hgt, Bool.false_eq_true, if_false]
  show findCloseTag ('<' :: '/' :: (tag ++ ['>']))
      (body ++ ('<' :: (('/' :: (tag ++ ['>'])) ++ post))) = some post
  exact findCloseTag_through ('/' :: (tag ++ ['>'])) body post hbody

/-- Scanner step when a match starts at the head. -/
theorem stripElemAux_cons_some (tag : List Char) (f : Nat) (c : Char) (cs rest : List Char)
    (h : tryMatchElem tag (c :: cs) = some rest) :
    stripElemAux tag (f + 1) (c :: cs) = stripElemAux tag f rest := by
  simp only [stripElemAux, h]

/-- Scanner step when no match starts at the head. -/
theorem stripElemAux_cons_none (tag : List Char) (f : Nat) (c : Char) (cs : List Char)
    (h : tryMatchElem tag (c :: cs) = none) :
    stripElemAux tag (f + 1) (c :: cs) = c :: stripElemAux tag f cs := by
  simp only [stripElemAux, h]

/-- A strip pass over markup consisting of `<`-free text, one well-formed
single-line element and a remainder removes exactly the element. -/
theorem stripElemAux_single (tag pre body post : List Char)
    (hpre : ∀ c ∈ pre, c.toLower ≠ '<')
    (hbody : ∀ c ∈ body, c.toLower ≠ '<' ∧ c ≠ '\n' ∧ c ≠ '\r') :
    ∀ fuel, (pre ++ (singleLineElem tag body ++ post)).length ≤ fuel →
      stripElemAux tag fuel (pre ++ (singleLineElem tag body ++ post))
        = pre ++ stripElemAux tag post.length post := by
  induction pre with
  | nil =>
    intro fuel hf
    simp only [List.nil_append] at hf ⊢
    cases fuel with
    | zero =>
      exfalso
      have h1 : (singleLineElem tag body ++ post).length
          = ((tag ++ ('>' :: (body ++ ('<' :: '/' :: (tag ++ ['>']))))) ++ post).length + 1 :=
        rfl
      omega
    | succ f =>
      show stripElemAux tag (f + 1)
          ('<' :: ((tag ++ ('>' :: (body ++ ('<' :: '/' :: (tag ++ ['>']))))) ++ post))
        = stripElemAux tag post.length post
      have hm : tryMatchElem tag
          ('<' :: ((tag ++ ('>' :: (body ++ ('<' :: '/' :: (tag ++ ['>']))))) ++ post))
          = some post := tryMatchElem_at tag body post hbody
      rw [stripElemAux_cons_some tag f _ _ _ hm]
      apply stripElemAux_fuel
      · have hlen : (singleLineElem tag body ++ post).length
            = (singleLineElem tag body).length + post.length := List.length_append _ _
        have h1 : (singleLineElem tag body).length
            = (tag ++ ('>' :: (body ++ ('<' :: '/' :: (tag ++ ['>']))))).length + 1 := rfl
        omega
      · exact le_rfl
  | cons p pre ih =>
    intro fuel hf
    cases fuel with
    | zero =>
      exfalso
      simp only [List.cons_append, List.length_cons] at hf
      omega
    | succ f =>
      have hm : tryMatchElem tag (p :: (pre ++ (singleLineElem tag body ++ post))) = none := by
        unfold tryMatchElem
        have hne : matchCI ('<' :: tag) (p :: (pre ++ (singleLineElem tag body ++ post)))
            = none := by
          apply matchCI_head_ne
          have hlt : Char.toLower '<' = '<' := by decide
          rw [hlt]
          exact fun he => (hpre p (List.mem_cons_self p pre)) he.symm
        rw [hne]
      rw [show (p :: pre) ++ (singleLineElem tag body ++ post)
            = p :: (pre ++ (singleLineElem tag body ++ post)) from rfl]
      rw [stripElemAux_cons_none tag f _ _ hm]
      rw [ih (fun c hc => hpre c (List.mem_cons_of_mem p hc)) f
        (by simp only [List.cons_append, List.length_cons] at hf ⊢; omega)]
      rfl

/-- String-level form of `stripElemAux_single`: the single global replace
deletes the single-line element and nothing else. -/
theorem stripElem_single (tag : String) (pre body post : List Char)
    (hpre : ∀ c ∈ pre, c.toLower ≠ '<')
    (hbody : ∀ c ∈ body, c.toLower ≠ '<' ∧ c ≠ '\n' ∧ c ≠ '\r') :
    stripElem tag (String.mk (pre ++ (singleLineElem tag.data body ++ post)))
      = String.mk (pre ++ (stripElem tag (String.mk post)).data) := by
  unfold stripElem
  congr 1
  exact stripElemAux_single tag.data pre body post hpre hbody _ le_rfl

/-- C9 counterexample: a script element whose content spans two lines
survives the display clean-up unchanged — the `.` of the strip regex does
not match line terminators — so the returned content still contains a
script element, contradicting the claim. -/
theorem C9_counterexample :
    processHtmlCleanup "<p>keep</p><script>\nalert(1)\n</script>"
      = "<p>keep</p><script>\nalert(1)\n</script>" ∧
    containsSub (processHtmlCleanup "<p>keep</p><script>\nalert(1)\n</script>")
      "<script>" = true := by
  decide

/-- C9 (amended): the clean-up removes script and head elements only when
the whole element lies on one line: a well-formed single-line element
preceded by `<`-free text and containing no `<` or line terminator in its
body is removed in full, with the surrounding markup preserved; and the
clean-up only ever deletes characters — both the display and the fallback
cleaner return a subsequence of the input, so everything outside removed
matches (and trimmed outer whitespace) is preserved in order.  Elements
whose content spans several lines are not removed (see the
counterexample). -/
theorem C9_strip_amended (pre body post : List Char)
    (hpre : ∀ c ∈ pre, c ≠ '<')
    (hbody : ∀ c ∈ body, c ≠ '<' ∧ c ≠ '\n' ∧ c ≠ '\r') :
    (∀ s : String, (processHtmlCleanup s).data.Sublist s.data) ∧
    (∀ s : String, (cleanHtmlContentBasic s).data.Sublist s.data) ∧
    stripElem "script" (String.mk (pre ++ (singleLineElem "script".data body ++ post)))
      = String.mk (pre ++ (stripElem "script" (String.mk post)).data) ∧
    stripElem "head" (String.mk (pre ++ (singleLineElem "head".data body ++ post)))
      = String.mk (pre ++ (stripElem "head" (String.mk post)).data) := by
  have hpre2 : ∀ c ∈ pre, c.toLower ≠ '<' :=
    fun c hc he => hpre c hc (toLower_eq_lt c he)
  have hbody2 : ∀ c ∈ body, c.toLower ≠ '<' ∧ c ≠ '\n' ∧ c ≠ '\r' :=
    fun c hc => ⟨fun he => (hbody c hc).1 (toLower_eq_lt c he),
      (hbody c hc).2.1, (hbody c hc).2.2⟩
  exact ⟨processHtmlCleanup_sublist, cleanHtmlContentBasic_sublist,
    stripElem_single "script" pre body post hpre2 hbody2,
    stripElem_single "head" pre body post hpre2 hbody2⟩

/-- C9 witness: concrete application with `pre = "ab"`, `body = "x"`,
`post = "cd"`. -/
theorem C9_strip_amended_witness :
    (∀ c ∈ ['a', 'b'], c ≠ '<') ∧
    (∀ c ∈ ['x'], c ≠ '<' ∧ c ≠ '\n' ∧ c ≠ '\r') ∧
    ((∀ s : String, (processHtmlCleanup s).data.Sublist s.data) ∧
     (∀ s : String, (cleanHtmlContentBasic s).data.Sublist s.data) ∧
     stripElem "script"
         (String.mk (['a', 'b'] ++ (singleLineElem "script".data ['x'] ++ ['c', 'd'])))
       = String.mk (['a', 'b'] ++ (stripElem "script" (String.mk ['c', 'd'])).data) ∧
     stripElem "head"
         (String.mk (['a', 'b'] ++ (singleLineElem "head".data ['x'] ++ ['c', 'd'])))
       = String.mk (['a', 'b'] ++ (stripElem "head" (String.mk ['c', 'd'])).data)) :=
  ⟨by decide, by decide,
   C9_strip_amended ['a', 'b'] ['x'] ['c', 'd'] (by decide) (by decide)⟩
